import Mathlib

/-!
Shallow embedding of the QARAG retrieval-and-orchestration backend
(`src/backend/app`), covering the document store's lexical search
(`services/document_store.py`), chunk persistence, the chat routers'
source aggregation (`routers/chat.py`, `routers/chat_stream.py`), the
confidence score (`services/llm_service.py`), text cleaning
(`services/document_processor.py`), snippet construction
(`services/tavily_search.py`), and the background ingestion tasks
(`routers/documents.py`).

Modelling conventions:
* Python floats are modelled as exact rationals (`ℚ`); every score in
  the claims is a short decimal for which the float comparisons agree
  with the rational ones.
* Text is modelled as Lean `String` / `List Char`; Python string
  slicing and length are per character, as in CPython.
* PostgreSQL state is modelled as explicit lists of rows; SQL `ORDER BY`
  leaves ties beyond its keys unspecified, and the model resolves them
  stably with respect to the table order (`List.insertionSort`, a
  stable sort).
* Code paths that can raise (`asyncpg` calls, the Groq/Tavily clients)
  are modelled with explicit environment flags saying which calls raise.
-/

namespace QARAG

open scoped List

/-- `models.py`: `SourceType` enum. -/
inductive SourceType where
  | internal_document
  | web_search
deriving DecidableEq, Repr

/-- `models.py`: the `Source` pydantic model.  `relevance_score` is a
Python float, modelled as `ℚ`. -/
structure Source where
  source_type : SourceType
  document_id : Option String := none
  document_name : Option String := none
  url : Option String := none
  snippet : String
  relevance_score : ℚ
deriving DecidableEq, Repr

/-- `llm_service.py` `calculate_confidence_score`: internal scores are
boosted by 1.2, web scores reduced by 0.8, the list of weighted scores
is averaged and capped at 1.0, with 0.0 for no sources. -/
def calculate_confidence_score (internal_sources web_sources : List Source) : ℚ :=
  let scores : List ℚ :=
    internal_sources.map (fun s => s.relevance_score * (6/5))
      ++ web_sources.map (fun s => s.relevance_score * (4/5))
  if scores.isEmpty then 0
  else min (scores.sum / scores.length) 1

/-! ### Character-level text utilities -/

/-- ASCII lowercasing of one character; models CPython `str.lower` and
PostgreSQL `lower()` on the ASCII range (the only range the claims
exercise). -/
def asciiLowerChar (c : Char) : Char := c.toLower

/-- ASCII lowercasing of a string. -/
def asciiLower (s : String) : List Char := s.data.map asciiLowerChar

/-- The characters CPython 3 treats as whitespace for `str.strip`, for
`str.isspace` and for the regex class `\s` on `str` patterns. -/
def isPySpace (c : Char) : Bool :=
  c == ' ' || c == '\t' || c == '\n' || c == '\r' ||
  c.toNat == 0x0b || c.toNat == 0x0c ||
  (0x1c <= c.toNat && c.toNat <= 0x1f) ||
  c.toNat == 0x85 || c.toNat == 0xa0 || c.toNat == 0x1680 ||
  (0x2000 <= c.toNat && c.toNat <= 0x200a) ||
  c.toNat == 0x2028 || c.toNat == 0x2029 || c.toNat == 0x202f ||
  c.toNat == 0x205f || c.toNat == 0x3000

/-- Python `str.strip()` on a character list: drop leading and trailing
whitespace. -/
def pyStrip (l : List Char) : List Char :=
  ((l.dropWhile isPySpace).reverse.dropWhile isPySpace).reverse

/-- Does `needle` occur as a contiguous sublist of `hay`?  Models the
`in` / substring relation the spec speaks about. -/
def charsContain (hay needle : List Char) : Bool :=
  hay.tails.any (fun suf => needle.isPrefixOf suf)

/-- Case-insensitive substring containment, the spec's reading of
`content ILIKE '%' || q || '%'` for a metacharacter-free `q`. -/
def containsCI (content q : String) : Bool :=
  charsContain (asciiLower content) (asciiLower q)

/-- Does any suffix of the list (including the list itself and `[]`)
satisfy `f`?  Helper giving `likeMatch` a structural recursion. -/
def anySuffix (f : List Char → Bool) : List Char → Bool
  | [] => f []
  | c :: t => f (c :: t) || anySuffix f t

/-- PostgreSQL `LIKE` pattern matching over already-lowercased character
lists: `%` matches any sequence, `_` any single character, `\` escapes
the next pattern character.  (PostgreSQL raises an error for a pattern
ending in a lone `\`; the patterns built by `search` always end in `%`,
possibly escaped, so that case is unreachable and is modelled as a
non-match.) -/
def likeMatch : List Char → List Char → Bool
  | [], t => t.isEmpty
  | c :: p, t =>
    if c = '%' then anySuffix (likeMatch p) t
    else if c = '_' then
      match t with
      | [] => false
      | _ :: t => likeMatch p t
    else if c = '\\' then
      match p with
      | [] => false
      | e :: p =>
        match t with
        | [] => false
        | d :: t => e == d && likeMatch p t
    else
      match t with
      | [] => false
      | d :: t => c == d && likeMatch p t

/-- `document_store.py` `search`: `content ILIKE '%' || q || '%'`.
`ILIKE` is case-insensitive `LIKE`, modelled by lowercasing both sides
(ASCII). -/
def ilikeContains (content q : String) : Bool :=
  likeMatch ('%' :: asciiLower q ++ ['%']) (asciiLower content)

/-! ### `document_store.py`: the lexical search engine -/

/-- `document_store.py` `_STOP_WORDS` (the full fixed set). -/
def STOP_WORDS : List String :=
  ["a", "an", "and", "are", "as", "at", "be", "but", "by", "can", "could",
   "did", "do", "does", "for", "from", "get", "give", "how", "i", "if",
   "in", "is", "it", "its", "me", "my", "of", "on", "or", "our", "please",
   "show", "tell", "that", "the", "their", "them", "this", "to", "us",
   "was", "we", "what", "when", "where", "which", "who", "why", "with",
   "you", "your", "doc", "docs", "document", "documents"]

/-- Is `c` in the regex class `[a-z0-9]`? -/
def isLowerAlnum (c : Char) : Bool :=
  ('a' ≤ c && c ≤ 'z') || ('0' ≤ c && c ≤ '9')

/-- `re.findall(r"[a-z0-9]+", ·)`: the maximal runs of `[a-z0-9]`
characters, in order.  `alnumRunsGo` carries the run currently being
built (in order). -/
def alnumRunsGo (cur : List Char) : List Char → List (List Char)
  | [] => if cur.isEmpty then [] else [cur]
  | c :: rest =>
    if isLowerAlnum c then alnumRunsGo (cur ++ [c]) rest
    else if cur.isEmpty then alnumRunsGo [] rest
    else cur :: alnumRunsGo [] rest

def alnumRuns (l : List Char) : List (List Char) := alnumRunsGo [] l

/-- The loop body of `_extract_query_terms`: skip a token shorter than
3 characters or in the stop-word set or already collected, else append
it. -/
def termStep (acc : List String) (token : String) : List String :=
  if token.length < 3 || STOP_WORDS.contains token then acc
  else if acc.contains token then acc
  else acc ++ [token]

/-- `document_store.py` `_extract_query_terms`: lowercase, tokenize on
`[a-z0-9]+` runs, drop tokens shorter than 3 characters or in the stop
word set, deduplicate keeping first occurrences, cap at 12. -/
def extract_query_terms (query : String) : List String :=
  let tokens := (alnumRuns (asciiLower query)).map (fun r => String.mk r)
  (tokens.foldl termStep []).take 12

/-- One row of `document_chunks` joined with its document
(`JOIN documents d ON dc.doc_id = d.id`); only the columns `search`
reads are modelled. -/
structure ChunkRow where
  doc_id : String
  chunk_index : ℕ
  content : String
  filename : String
deriving DecidableEq, Repr

/-- A `SELECT`ed row paired with its computed `rank_score`. -/
abbrev RankedRow := ChunkRow × ℚ

/-- The `WHERE` clause of the scoped and global search queries (minus
the `doc_id` restriction): the content matches the raw query as an
`ILIKE` pattern, or contains some extracted term. -/
def whereMatches (query_text : String) (query_terms : List String) (r : ChunkRow) : Bool :=
  ilikeContains r.content query_text
    || query_terms.any (fun term => ilikeContains r.content term)

/-- The `CASE` rank: 1.0 when the content matches the raw query
pattern, else 0.7. -/
def rankScore (query_text : String) (r : ChunkRow) : ℚ :=
  if ilikeContains r.content query_text then 1 else 7/10

/-- `ORDER BY rank_score DESC, dc.chunk_index ASC` as a relation on
ranked rows.  Ties beyond these keys are unspecified by SQL; the model
keeps them in table order (stable sort). -/
def sqlOrderRank (a b : RankedRow) : Prop :=
  b.2 < a.2 ∨ (a.2 = b.2 ∧ a.1.chunk_index ≤ b.1.chunk_index)

instance : DecidableRel sqlOrderRank := fun _ _ =>
  inferInstanceAs (Decidable (_ ∨ _))

instance : IsTotal RankedRow sqlOrderRank where
  total a b := by
    rcases lt_trichotomy a.2 b.2 with h | h | h
    · exact .inr (.inl h)
    · rcases Nat.le_total a.1.chunk_index b.1.chunk_index with h' | h'
      · exact .inl (.inr ⟨h, h'⟩)
      · exact .inr (.inr ⟨h.symm, h'⟩)
    · exact .inl (.inl h)

instance : IsTrans RankedRow sqlOrderRank where
  trans a b c hab hbc := by
    rcases hab with h | ⟨he, hi⟩ <;> rcases hbc with h' | ⟨he', hi'⟩
    · exact .inl (h'.trans h)
    · exact .inl (he' ▸ h)
    · exact .inl (he ▸ h')
    · exact .inr ⟨he.trans he', hi.trans hi'⟩

/-- `ORDER BY dc.doc_id ASC, dc.chunk_index ASC` (the fallback query's
ordering), on ranked rows. -/
def fallbackOrder (a b : RankedRow) : Prop :=
  a.1.doc_id < b.1.doc_id ∨ (a.1.doc_id = b.1.doc_id ∧ a.1.chunk_index ≤ b.1.chunk_index)

instance : DecidableRel fallbackOrder := fun _ _ =>
  inferInstanceAs (Decidable (_ ∨ _))

instance : IsTotal RankedRow fallbackOrder where
  total a b := by
    rcases lt_trichotomy a.1.doc_id b.1.doc_id with h | h | h
    · exact .inl (.inl h)
    · rcases Nat.le_total a.1.chunk_index b.1.chunk_index with h' | h'
      · exact .inl (.inr ⟨h, h'⟩)
      · exact .inr (.inr ⟨h.symm, h'⟩)
    · exact .inr (.inl h)

instance : IsTrans RankedRow fallbackOrder where
  trans a b c hab hbc := by
    rcases hab with h | ⟨he, hi⟩ <;> rcases hbc with h' | ⟨he', hi'⟩
    · exact .inl (h.trans h')
    · exact .inl (he' ▸ h)
    · exact .inl (he ▸ h')
    · exact .inr ⟨he.trans he', hi.trans hi'⟩

/-- The scoped lexical query of `search` (`doc_ids` non-empty branch):
restrict to the selected documents, keep rows satisfying the `WHERE`
clause, compute `rank_score`, order, `LIMIT n_results`. -/
def scopedRows (store : List ChunkRow) (query_text : String)
    (query_terms : List String) (doc_ids : List String) (n_results : ℕ) :
    List RankedRow :=
  ((((store.filter
        (fun r => doc_ids.contains r.doc_id && whereMatches query_text query_terms r)).map
      (fun r => (r, rankScore query_text r))).insertionSort sqlOrderRank).take n_results)

/-- The global lexical query of `search` (`doc_ids is None` branch). -/
def globalRows (store : List ChunkRow) (query_text : String)
    (query_terms : List String) (n_results : ℕ) : List RankedRow :=
  ((((store.filter (fun r => whereMatches query_text query_terms r)).map
      (fun r => (r, rankScore query_text r))).insertionSort sqlOrderRank).take n_results)

/-- `document_store.py` `_fetch_fallback_chunks`: all chunks of the
selected documents with a fixed `0.45` rank, ordered by
`(doc_id, chunk_index)`, `LIMIT n_results`. -/
def fetch_fallback_chunks (store : List ChunkRow) (doc_ids : List String)
    (n_results : ℕ) : List RankedRow :=
  ((((store.filter (fun r => doc_ids.contains r.doc_id)).map
      (fun r => (r, (9/20 : ℚ)))).insertionSort fallbackOrder).take n_results)

/-- `document_store.py` `_rows_to_sources`: snippet is the first 500
characters, with `"..."` appended when the content is longer than 500
characters. -/
def snippetOf (content : String) : String :=
  if content.length > 500 then String.mk (content.data.take 500) ++ "..." else content

/-- `document_store.py` `_rows_to_sources` on one row.  `filename` is
`NOT NULL` in the schema and non-empty for every ingested document
(upload rejects an empty filename; URL documents use the validated URL),
so the `or metadata.get("source", "Unknown")` fallback for a falsy
filename never fires and is not modelled. -/
def rowToSource (rr : RankedRow) : Source :=
  { source_type := .internal_document
    document_id := some rr.1.doc_id
    document_name := some rr.1.filename
    url := none
    snippet := snippetOf rr.1.content
    relevance_score := rr.2 }

def rows_to_sources (rows : List RankedRow) : List Source :=
  rows.map rowToSource

/-- `document_store.py` `SimpleDocumentStore.search`.  The store is the
`document_chunks` table (joined with `documents`); `doc_ids = none`
models passing `doc_ids=None` (parameter omitted), `some ids` an
explicit list.  `score_threshold` defaults to 0 at every call site in
the repository. -/
def search (store : List ChunkRow) (query : String) (n_results : ℕ)
    (doc_ids : Option (List String)) (score_threshold : ℚ) : List Source :=
  let query_text := String.mk (pyStrip query.data)
  let query_terms := extract_query_terms query_text
  match doc_ids with
  | some ids =>
    if ids.length = 0 then []
    else
      let rows := scopedRows store query_text query_terms ids n_results
      let rows := if rows.isEmpty then fetch_fallback_chunks store ids n_results else rows
      let sources := rows_to_sources rows
      if score_threshold > 0 then
        sources.filter (fun s => score_threshold ≤ s.relevance_score)
      else sources
  | none =>
    let sources := rows_to_sources (globalRows store query_text query_terms n_results)
    if score_threshold > 0 then
      sources.filter (fun s => score_threshold ≤ s.relevance_score)
    else sources

/-! ### `tavily_search.py`: the web source gatherer -/

/-- One entry of the provider's `response["results"]`; absent keys are
`none` (the code reads them with `.get`). -/
structure TavilyItem where
  url : Option String
  content : Option String
  score : Option ℚ
deriving DecidableEq, Repr

/-- `tavily_search.py` `search`: result → `Source` conversion
(`snippet=result.get("content", "")[:500]`,
`relevance_score=result.get("score", 0.5)`). -/
def tavilySearchSource (item : TavilyItem) : Source :=
  { source_type := .web_search
    url := item.url
    snippet := String.mk ((item.content.getD "").data.take 500)
    relevance_score := item.score.getD (1/2) }

/-- `tavily_search.py` `extract`: result → `Source` conversion
(`snippet=content[:500] if content else ""`, fixed score 1.0). -/
def tavilyExtractSource (item : TavilyItem) : Source :=
  let content := item.content.getD ""
  { source_type := .web_search
    url := some (item.url.getD "")
    snippet := if content = "" then "" else String.mk (content.data.take 500)
    relevance_score := 1 }

/-! ### `routers/chat.py` and `routers/chat_stream.py`: source scoping
and aggregation -/

/-- The `doc_ids` argument the non-streaming `chat` endpoint passes to
`document_store.search`: `if request.doc_ids:` only adds the key for a
truthy (non-`None`, non-empty) list, so `None` and `[]` both fall back
to an unscoped search. -/
def chatSearchDocIds (request_doc_ids : Option (List String)) : Option (List String) :=
  match request_doc_ids with
  | some ids => if ids.isEmpty then none else some ids
  | none => none

/-- Internal sources retrieved by the non-streaming `chat` endpoint
(`routers/chat.py`, `internal_sources = await document_store.search(**search_kwargs)`). -/
def chatInternalSources (store : List ChunkRow) (message : String)
    (max_internal_sources : ℕ) (request_doc_ids : Option (List String)) : List Source :=
  search store message max_internal_sources (chatSearchDocIds request_doc_ids) 0

/-- `routers/chat_stream.py`:
`thread_doc_ids = request.doc_ids if request.doc_ids is not None else []`. -/
def streamThreadDocIds (request_doc_ids : Option (List String)) : List String :=
  request_doc_ids.getD []

/-- Internal sources retrieved by the streaming endpoint
(`routers/chat_stream.py`, which always passes `doc_ids=thread_doc_ids`). -/
def streamInternalSources (store : List ChunkRow) (message : String)
    (max_internal_sources : ℕ) (request_doc_ids : Option (List String)) : List Source :=
  search store message max_internal_sources (some (streamThreadDocIds request_doc_ids)) 0

/-- Descending order on `relevance_score`
(`sort(key=lambda x: x.relevance_score, reverse=True)`); ties keep list
order because Python's sort is stable. -/
def scoreDesc (a b : Source) : Prop :=
  b.relevance_score ≤ a.relevance_score

instance : DecidableRel scoreDesc := fun _ _ =>
  inferInstanceAs (Decidable (_ ≤ _))

instance : IsTotal Source scoreDesc where
  total a b := le_total b.relevance_score a.relevance_score

instance : IsTrans Source scoreDesc where
  trans _ _ _ hab hbc := le_trans hbc hab

/-- The threshold applied to internal sources in both chat routers:
`0.75 if (use_web_search and web_sources) else 0.4`. -/
def internalThreshold (use_web_search : Bool) (web_sources : List Source) : ℚ :=
  if use_web_search && !web_sources.isEmpty then 3/4 else 2/5

/-- The source filtering and merging block shared verbatim by
`routers/chat.py` (lines 90–97) and `routers/chat_stream.py`
(lines 115–125): filter internal sources by the context-dependent
threshold, web sources by 0.4, concatenate, stable-sort by
`relevance_score` descending. -/
def mergeChatSources (use_web_search : Bool)
    (internal_sources web_sources : List Source) : List Source :=
  let internal_filtered :=
    internal_sources.filter
      (fun s => internalThreshold use_web_search web_sources ≤ s.relevance_score)
  let web_filtered := web_sources.filter (fun s => (2/5 : ℚ) ≤ s.relevance_score)
  (internal_filtered ++ web_filtered).insertionSort scoreDesc

/-! ### `document_processor.py` `_clean_text` -/

mutual

/-- First substitution of `_clean_text`, `re.sub(r"\s+", " ", text)`:
replace every maximal run of whitespace by one space. -/
def collapseWhitespace : List Char → List Char
  | [] => []
  | c :: rest =>
    if isPySpace c then ' ' :: collapseRun rest else c :: collapseWhitespace rest

/-- Continuation of `collapseWhitespace` inside a whitespace run whose
single replacement space has already been emitted. -/
def collapseRun : List Char → List Char
  | [] => []
  | c :: rest =>
    if isPySpace c then collapseRun rest else c :: collapseWhitespace rest

end

/-- Second substitution of `_clean_text`,
`re.sub(r"[\x00-\x08\x0b-\x0c\x0e-\x1f]", "", text)`: is `c` in the
deleted class? -/
def isStrippedCtl (c : Char) : Bool :=
  c.toNat ≤ 0x08 || (0x0b ≤ c.toNat && c.toNat ≤ 0x0c) ||
  (0x0e ≤ c.toNat && c.toNat ≤ 0x1f)

def removeCtl (l : List Char) : List Char :=
  l.filter (fun c => !isStrippedCtl c)

/-- The characters after the last `'\n'` of the list, or `none` when it
has no `'\n'`.  Helper for the greedy match of `re.sub(r"\n\s*\n", ...)`. -/
def afterLastNl : List Char → Option (List Char)
  | [] => none
  | c :: rest =>
    match afterLastNl rest with
    | some t => some t
    | none => if c = '\n' then some rest else none

/-- Third substitution of `_clean_text`, `re.sub(r"\n\s*\n", "\n\n", text)`,
with Python's leftmost, greedy, non-overlapping semantics: at each
`'\n'`, if the following whitespace run contains another `'\n'`, the
match extends to the last such `'\n'` (greedy `\s*` after backtracking),
the whole match is replaced by two newlines and scanning resumes after
it. -/
def normalizeBlankLines : List Char → List Char
  | [] => []
  | c :: rest =>
    if c = '\n' then
      match h : afterLastNl (rest.takeWhile isPySpace) with
      | some t =>
        have : (t ++ rest.dropWhile isPySpace).length < rest.length + 1 := by
          have key : ∀ (l u : List Char), afterLastNl l = some u → u.length < l.length := by
            intro l
            induction l with
            | nil => intro u hu; simp [afterLastNl] at hu
            | cons c cs ih =>
              intro u hu
              rw [afterLastNl] at hu
              rcases hr : afterLastNl cs with _ | u'
              · rw [hr] at hu
                by_cases hc : c = '\n' <;> simp [hc] at hu
                subst hu
                simp
              · rw [hr] at hu
                cases hu
                exact Nat.lt_succ_of_lt (ih _ hr)
          have h1 := key _ _ h
          have h2 : (rest.takeWhile isPySpace).length + (rest.dropWhile isPySpace).length
              = rest.length := by
            rw [← List.length_append, List.takeWhile_append_dropWhile]
          simp only [List.length_append]
          omega
        '\n' :: '\n' :: normalizeBlankLines (t ++ rest.dropWhile isPySpace)
      | none => c :: normalizeBlankLines rest
    else c :: normalizeBlankLines rest
termination_by l => l.length
decreasing_by
  · exact this
  · simp
  · simp

/-- `document_processor.py` `_clean_text`: collapse whitespace runs,
delete the control-character class, rewrite `\n\s*\n` to `\n\n`, then
`strip()`. -/
def clean_text (text : String) : String :=
  String.mk (pyStrip (normalizeBlankLines (removeCtl (collapseWhitespace text.data))))

/-! ### `document_store.py` `add_document_chunks`: chunk persistence -/

/-- `models.py` `DocumentStatus`. -/
inductive DocumentStatus where
  | pending
  | processing
  | completed
  | failed
deriving DecidableEq, Repr

/-- The per-document slice of database state that
`add_document_chunks` touches: the `(chunk_index, content)` rows of
`document_chunks` with this `doc_id` (in table order), and the
document's `chunk_count` and `status` columns. -/
structure DocState where
  chunks : List (ℕ × String)
  chunk_count : ℕ
  status : DocumentStatus
deriving DecidableEq, Repr

/-- One `INSERT ... ON CONFLICT (doc_id, chunk_index) DO UPDATE SET
content = EXCLUDED.content, ...`: overwrite the row with this
`chunk_index` if present, else append a new row. -/
def upsertChunk (idx : ℕ) (content : String) (rows : List (ℕ × String)) :
    List (ℕ × String) :=
  if rows.any (fun r => r.1 == idx) then
    rows.map (fun r => if r.1 == idx then (idx, content) else r)
  else rows ++ [(idx, content)]

/-- `document_store.py` `add_document_chunks` for a chunk list produced
by `_chunk_text` (whose metadata `chunk_index` is the chunk's position):
upsert every chunk, then set `chunk_count = len(chunks)` and
`status = 'completed'`.  An empty chunk list returns without touching
the database. -/
def add_document_chunks (contents : List String) (st : DocState) : DocState :=
  if contents.isEmpty then st
  else
    { chunks := contents.enum.foldl (fun rows ic => upsertChunk ic.1 ic.2 rows) st.chunks
      chunk_count := contents.length
      status := .completed }

/-! ### `routers/documents.py`: background ingestion tasks

`document_processor.process_file` / `process_url` wrap their whole body
in `try/except Exception` and return a `(status, chunks, error)` triple,
so they never raise; exceptions inside the background tasks can come
only from the awaited database calls.  The environment below records
the processing outcome and which database calls raise.  Status-update
statements other than the ones flagged are modelled as succeeding
(their failure is the flagged cases). -/

/-- Outcome of `document_processor.process_file` or `process_url`:
either `(COMPLETED, chunks, None)` with non-empty `chunks`, or
`(FAILED, [], error)`. -/
structure ProcessOutcome where
  status : DocumentStatus
  chunks : List String
deriving DecidableEq, Repr

/-- The failure environment of one background ingestion attempt. -/
structure IngestEnv where
  /-- what the processing step returned -/
  outcome : ProcessOutcome
  /-- some statement inside `add_document_chunks` raises (all its
  status-affecting writes happen at its end, so the document status is
  left untouched when it raises) -/
  persist_raises : Bool
  /-- the `status = 'failed'` `UPDATE` inside the `except` handler raises -/
  fail_update_raises : Bool
  /-- the `SELECT`/`UPDATE` pair inside `_process_document_background`'s
  `finally` block raises -/
  final_check_raises : Bool
deriving DecidableEq, Repr

/-- Final observable state of a background task: the document's status
and whether an exception escaped the task. -/
structure IngestResult where
  status : DocumentStatus
  raised : Bool
deriving DecidableEq, Repr

/-- `routers/documents.py` `_process_document_background`: set status to
`'processing'`, process the file, persist chunks on success (which sets
`'completed'`) or mark `'failed'`; on an exception, the `except` handler
marks `'failed'`; the `finally` block re-reads the status and forces any
document still `'processing'` to `'failed'`.  The initial status is
irrelevant because the first statement overwrites it. -/
def process_document_background (env : IngestEnv) : IngestResult :=
  let st := DocumentStatus.processing
  let afterTry : DocumentStatus × Bool :=
    if env.outcome.status = .completed ∧ env.outcome.chunks ≠ [] then
      if env.persist_raises then (st, true) else (.completed, false)
    else
      (.failed, false)
  let afterExc : DocumentStatus × Bool :=
    if afterTry.2 then
      if env.fail_update_raises then (afterTry.1, true) else (.failed, false)
    else afterTry
  if env.final_check_raises then { status := afterExc.1, raised := true }
  else if afterExc.1 = .processing then { status := .failed, raised := afterExc.2 }
  else { status := afterExc.1, raised := afterExc.2 }

/-- `routers/documents.py` `_process_url_background`: process the URL,
persist chunks on success (which sets `'completed'`); in the failure
branch the `UPDATE` statement has one placeholder (`$1`) but is passed
two arguments (`"failed", doc_id`), so `asyncpg` raises an arity error
before executing it and the `except` handler performs the (well-formed)
`'failed'` update instead.  There is no `finally` consistency check in
this task.  `init` is the document's status when the task starts
(`'processing'`, inserted by the `/documents/url` endpoint). -/
def process_url_background (env : IngestEnv) (init : DocumentStatus) : IngestResult :=
  let afterTry : DocumentStatus × Bool :=
    if env.outcome.status = .completed ∧ env.outcome.chunks ≠ [] then
      if env.persist_raises then (init, true) else (.completed, false)
    else
      (init, true)
  if afterTry.2 then
    if env.fail_update_raises then { status := afterTry.1, raised := true }
    else { status := .failed, raised := false }
  else { status := afterTry.1, raised := false }

/-- `l` contains no SQL `LIKE` metacharacter. -/
def noMeta (l : List Char) : Prop :=
  ∀ c ∈ l, c ≠ '%' ∧ c ≠ '_' ∧ c ≠ '\\'

/-!
## Supporting lemmas
-/

theorem likeMatch_nil (t : List Char) : likeMatch [] t = t.isEmpty := rfl

/-- One-step unfolding of `likeMatch` on a non-empty pattern. -/
theorem likeMatch_cons (c : Char) (p t : List Char) :
    likeMatch (c :: p) t =
      if c = '%' then anySuffix (likeMatch p) t
      else if c = '_' then
        (match t with
        | [] => false
        | _ :: t => likeMatch p t)
      else if c = '\\' then
        (match p with
        | [] => false
        | e :: p =>
          match t with
          | [] => false
          | d :: t => e == d && likeMatch p t)
      else
        (match t with
        | [] => false
        | d :: t => c == d && likeMatch p t) := by
  rw [likeMatch.eq_def]

theorem anySuffix_likeMatch_nil : ∀ t : List Char, anySuffix (likeMatch []) t = true
  | [] => rfl
  | c :: t => by simp [anySuffix, anySuffix_likeMatch_nil t]

theorem anySuffix_congr {f g : List Char → Bool} (h : ∀ l, f l = g l) :
    ∀ t, anySuffix f t = anySuffix g t
  | [] => h []
  | c :: t => by simp only [anySuffix, h (c :: t), anySuffix_congr h t]

theorem anySuffix_eq_any_tails (f : List Char → Bool) :
    ∀ t, anySuffix f t = t.tails.any f
  | [] => by simp [anySuffix]
  | c :: t => by
    simp [anySuffix, anySuffix_eq_any_tails f t]

/-- A metacharacter-free `LIKE` pattern followed by `%` matches exactly
the texts it is a prefix of. -/
theorem likeMatch_literal_percent {p : List Char} (hp : noMeta p) :
    ∀ t, likeMatch (p ++ ['%']) t = p.isPrefixOf t := by
  induction p with
  | nil =>
    intro t
    simp only [List.nil_append, List.isPrefixOf_nil_left]
    rw [likeMatch_cons, if_pos rfl]
    exact anySuffix_likeMatch_nil t
  | cons c p ih =>
    intro t
    obtain ⟨h1, h2, h3⟩ := hp c (List.mem_cons_self ..)
    have hp' : noMeta p := fun d hd => hp d (List.mem_cons_of_mem _ hd)
    cases t with
    | nil => simp [likeMatch_cons, h1, h2, h3]
    | cons d t => simp [likeMatch_cons, h1, h2, h3, ih hp', List.isPrefixOf_cons₂]

/-- For a metacharacter-free `q`, the pattern `'%' ++ q ++ '%'` matches
exactly the texts containing `q` as a contiguous substring. -/
theorem likeMatch_wrap {q : List Char} (hq : noMeta q) (t : List Char) :
    likeMatch ('%' :: (q ++ ['%'])) t = charsContain t q := by
  rw [likeMatch_cons, if_pos rfl, anySuffix_congr (likeMatch_literal_percent hq),
    anySuffix_eq_any_tails]
  rfl

/-- `content ILIKE '%' || q || '%'` is case-insensitive substring
containment whenever the lowercased `q` has no `LIKE` metacharacter. -/
theorem ilikeContains_eq_containsCI {content q : String}
    (hq : noMeta (asciiLower q)) :
    ilikeContains content q = containsCI content q := by
  unfold ilikeContains containsCI
  exact likeMatch_wrap hq _

theorem asciiLowerChar_of_alnum {c : Char} (h : isLowerAlnum c = true) :
    asciiLowerChar c = c := by
  simp only [isLowerAlnum, Bool.or_eq_true, Bool.and_eq_true, decide_eq_true_eq] at h
  have hb : ¬(c.toNat ≥ 65 ∧ c.toNat ≤ 90) := by
    rcases h with ⟨h1, h2⟩ | ⟨h1, h2⟩
    · have n1 : 97 ≤ c.toNat := UInt32.le_toNat_of_le (by norm_num) h1
      omega
    · have n2 : c.toNat ≤ 57 := UInt32.toNat_le_of_le (by norm_num) h2
      omega
  unfold asciiLowerChar Char.toLower
  simp [hb]

theorem alnum_not_meta {c : Char} (h : isLowerAlnum c = true) :
    c ≠ '%' ∧ c ≠ '_' ∧ c ≠ '\\' := by
  refine ⟨?_, ?_, ?_⟩ <;> rintro rfl <;> simp [isLowerAlnum] at h

/-- Extracted query terms are fixed by lowercasing and metacharacter
free. -/
theorem noMeta_asciiLower_of_alnum {t : String}
    (h : ∀ c ∈ t.data, isLowerAlnum c = true) : noMeta (asciiLower t) := by
  intro c hc
  rcases List.mem_map.mp hc with ⟨d, hd, rfl⟩
  rw [asciiLowerChar_of_alnum (h d hd)]
  exact alnum_not_meta (h d hd)

theorem termStep_mem {acc : List String} {token t : String}
    (h : t ∈ termStep acc token) :
    t ∈ acc ∨ (t = token ∧ 3 ≤ token.length ∧ token ∉ STOP_WORDS) := by
  unfold termStep at h
  split at h
  · exact .inl h
  · rename_i hcond
    split at h
    · exact .inl h
    · rcases List.mem_append.mp h with h | h
      · exact .inl h
      · simp only [List.mem_singleton] at h
        simp only [Bool.or_eq_true, decide_eq_true_eq, not_or,
          List.elem_iff] at hcond
        exact .inr ⟨h, by omega, hcond.2⟩

theorem termFold_mem : ∀ (tokens acc : List String) (t : String),
    t ∈ tokens.foldl termStep acc →
    t ∈ acc ∨ (t ∈ tokens ∧ 3 ≤ t.length ∧ t ∉ STOP_WORDS)
  | [], _, _, h => .inl h
  | tok :: toks, acc, t, h => by
    rcases termFold_mem toks (termStep acc tok) t h with h' | h'
    · rcases termStep_mem h' with h'' | ⟨rfl, hc⟩
      · exact .inl h''
      · exact .inr ⟨List.mem_cons_self .., hc⟩
    · exact .inr ⟨List.mem_cons_of_mem _ h'.1, h'.2⟩

theorem termStep_nodup {acc : List String} {token : String} (h : acc.Nodup) :
    (termStep acc token).Nodup := by
  unfold termStep
  split
  · exact h
  · split
    · exact h
    · rename_i hmem
      rw [List.elem_iff] at hmem
      simpa using List.Nodup.concat hmem h

theorem termFold_nodup : ∀ (tokens acc : List String), acc.Nodup →
    (tokens.foldl termStep acc).Nodup
  | [], _, h => h
  | tok :: toks, acc, h => termFold_nodup toks (termStep acc tok) (termStep_nodup h)

theorem alnumRunsGo_chars : ∀ (l cur : List Char),
    (∀ c ∈ cur, isLowerAlnum c = true) →
    ∀ r ∈ alnumRunsGo cur l, ∀ c ∈ r, isLowerAlnum c = true
  | [], cur, hcur, r, hr => by
    unfold alnumRunsGo at hr
    split at hr
    · simp at hr
    · simp only [List.mem_singleton] at hr
      subst hr
      exact hcur
  | ch :: rest, cur, hcur, r, hr => by
    unfold alnumRunsGo at hr
    split at hr
    · rename_i hch
      refine alnumRunsGo_chars rest (cur ++ [ch]) ?_ r hr
      intro c hc
      rcases List.mem_append.mp hc with hc | hc
      · exact hcur c hc
      · simp only [List.mem_singleton] at hc
        exact hc ▸ hch
    · split at hr
      · exact alnumRunsGo_chars rest [] (by simp) r hr
      · rcases List.mem_cons.mp hr with rfl | hr'
        · exact hcur
        · exact alnumRunsGo_chars rest [] (by simp) r hr'

/-- Every term produced by `extract_query_terms` is at least 3
characters, not a stop word, and made of `[a-z0-9]` characters; the
list has no duplicates and at most 12 entries. -/
theorem extract_query_terms_spec (query : String) :
    (extract_query_terms query).length ≤ 12 ∧
    (extract_query_terms query).Nodup ∧
    ∀ t ∈ extract_query_terms query,
      3 ≤ t.length ∧ t ∉ STOP_WORDS ∧ ∀ c ∈ t.data, isLowerAlnum c = true := by
  refine ⟨?_, ?_, ?_⟩
  · simp [extract_query_terms]
  · exact (termFold_nodup _ _ List.nodup_nil).sublist (List.take_sublist ..)
  · intro t ht
    have ht' := List.take_subset _ _ ht
    rcases termFold_mem _ _ _ ht' with h | ⟨hmem, hlen, hstop⟩
    · simp at h
    · refine ⟨hlen, hstop, ?_⟩
      rcases List.mem_map.mp hmem with ⟨r, hr, rfl⟩
      intro c hc
      exact alnumRunsGo_chars _ [] (by simp) r hr c hc

theorem search_empty_doc_ids (store : List ChunkRow) (query : String)
    (n_results : ℕ) (score_threshold : ℚ) :
    search store query n_results (some []) score_threshold = [] := rfl

/-!
## Claim theorems
-/

/-- C2: for every query, limit, threshold and state of the chunk store,
lexical search with `doc_ids` equal to the explicit empty list returns
the empty source list — even when chunks of other documents contain
text matching the query — and never falls back to an unscoped global
search. -/
theorem C2_empty_doc_ids_returns_no_sources (store : List ChunkRow)
    (query : String) (n_results : ℕ) (score_threshold : ℚ) :
    search store query n_results (some []) score_threshold = [] :=
  search_empty_doc_ids store query n_results score_threshold

/-- C7 (amended): the confidence score is the arithmetic mean of all
surfaced sources' scores with internal scores multiplied by 1.2 and web
scores by 0.8, capped at 1.0, and 0.0 with no sources; for one internal
source at 0.9 and one web source at 0.5 it is (0.9·1.2 + 0.5·0.8)/2 =
0.74, not 1.0. -/
theorem sum_map_mul_const {α : Type} (f : α → ℚ) (c : ℚ) :
    ∀ l : List α, (l.map (fun x => f x * c)).sum = (l.map f).sum * c
  | [] => by simp
  | a :: l => by simp [sum_map_mul_const f c l, add_mul]

theorem C7_confidence_weighted_mean (internal_sources web_sources : List Source) :
    (calculate_confidence_score internal_sources web_sources =
      if internal_sources = [] ∧ web_sources = [] then 0
      else min
        (((internal_sources.map Source.relevance_score).sum * (6/5)
            + (web_sources.map Source.relevance_score).sum * (4/5))
          / ((internal_sources.length : ℚ) + web_sources.length)) 1) ∧
    calculate_confidence_score
        [{ source_type := .internal_document, snippet := "", relevance_score := 9/10 }]
        [{ source_type := .web_search, snippet := "", relevance_score := 1/2 }]
      = 37/50 := by
  constructor
  · unfold calculate_confidence_score
    by_cases h : internal_sources = [] ∧ web_sources = []
    · obtain ⟨h1, h2⟩ := h
      subst h1
      subst h2
      simp
    · have hne : ((internal_sources.map fun (s : Source) => s.relevance_score * (6/5)) ++
          web_sources.map fun (s : Source) => s.relevance_score * (4/5)).isEmpty = false := by
        rw [Bool.eq_false_iff]
        intro ht
        rw [List.isEmpty_iff, List.append_eq_nil] at ht
        exact h ⟨List.map_eq_nil_iff.mp ht.1, List.map_eq_nil_iff.mp ht.2⟩
      rw [if_neg h]
      simp only [hne, Bool.false_eq_true, if_false]
      have hsum : ((internal_sources.map fun (s : Source) => s.relevance_score * (6/5)) ++
          web_sources.map fun (s : Source) => s.relevance_score * (4/5)).sum
          = (internal_sources.map Source.relevance_score).sum * (6/5)
            + (web_sources.map Source.relevance_score).sum * (4/5) := by
        rw [List.sum_append, sum_map_mul_const Source.relevance_score (6/5),
          sum_map_mul_const Source.relevance_score (4/5)]
      have hlen : ((((internal_sources.map fun (s : Source) => s.relevance_score * (6/5)) ++
          web_sources.map fun (s : Source) => s.relevance_score * (4/5)).length : ℕ) : ℚ)
          = (internal_sources.length : ℚ) + web_sources.length := by
        push_cast [List.length_append, List.length_map]
        ring
      rw [hsum, hlen]
  · norm_num [calculate_confidence_score]

/-- C7 counterexample: the claim's example value is wrong — one internal
source at 0.9 and one web source at 0.5 yield (0.9·1.2 + 0.5·0.8)/2 =
0.74, which is not 1.0. -/
theorem C7_counterexample :
    calculate_confidence_score
        [{ source_type := .internal_document, snippet := "", relevance_score := 9/10 }]
        [{ source_type := .web_search, snippet := "", relevance_score := 1/2 }]
      ≠ 1 := by
  norm_num [calculate_confidence_score]

/-- C1 (amended): for file uploads, `_process_document_background`
always leaves a terminal status — `'completed'` or `'failed'` — whenever
the `finally` consistency check's own database operations succeed, no
matter which stage raised (even when the `except` handler's failure
write itself raises), because the `finally` block forces any document
still `'processing'` into `'failed'`; any processing failure or
persistence exception yields `'failed'`.  `_process_url_background` has
no such finalization: it reaches a terminal status whenever its
`except` handler's failure write succeeds, and any processing failure
or persistence exception then yields `'failed'`. -/
theorem C1_ingestion_terminal_status (env : IngestEnv) (init : DocumentStatus) :
    (env.final_check_raises = false →
      (process_document_background env).status = .completed ∨
      (process_document_background env).status = .failed) ∧
    (env.final_check_raises = false →
      (env.outcome.status ≠ .completed ∨ env.outcome.chunks = [] ∨
        env.persist_raises = true) →
      (process_document_background env).status = .failed) ∧
    (env.fail_update_raises = false →
      (process_url_background env init).status = .completed ∨
      (process_url_background env init).status = .failed) ∧
    (env.fail_update_raises = false →
      (env.outcome.status ≠ .completed ∨ env.outcome.chunks = [] ∨
        env.persist_raises = true) →
      (process_url_background env init).status = .failed) := by
  obtain ⟨⟨ost, och⟩, pr, fr, fc⟩ := env
  cases ost <;> rcases och with _ | ⟨c, cs⟩ <;> cases pr <;> cases fr <;> cases fc <;>
    simp [process_document_background, process_url_background]

/-- C1 witness: a concrete failed extraction is marked `'failed'` by
both background tasks when the status writes succeed. -/
theorem C1_witness :
    (process_document_background ⟨⟨.failed, []⟩, false, false, false⟩).status
      = .failed ∧
    (process_url_background ⟨⟨.failed, []⟩, false, false, false⟩ .processing).status
      = .failed := by
  refine ⟨?_, ?_⟩
  · exact (C1_ingestion_terminal_status ⟨⟨.failed, []⟩, false, false, false⟩
      .processing).2.1 rfl (Or.inl (by decide))
  · exact (C1_ingestion_terminal_status ⟨⟨.failed, []⟩, false, false, false⟩
      .processing).2.2.2 rfl (Or.inl (by decide))

/-- C1 counterexample: when persistence raises and the `except`
handler's failure write also raises, the URL background task finishes
with the document still `'processing'` (the exception escapes and no
finalization exists), while the file-upload task's `finally` check still
forces `'failed'` under the same environment. -/
theorem C1_counterexample :
    (process_url_background ⟨⟨.completed, ["chunk"]⟩, true, true, false⟩
        .processing).status = .processing ∧
    (process_url_background ⟨⟨.completed, ["chunk"]⟩, true, true, false⟩
        .processing).raised = true ∧
    (process_document_background ⟨⟨.completed, ["chunk"]⟩, true, true, false⟩).status
      = .failed := by
  refine ⟨?_, ?_, ?_⟩ <;> rfl

/-- C3: the two chat endpoints treat an empty `doc_ids` list
differently — for a request with `doc_ids = []`, the non-streaming
endpoint omits the argument (an empty list is falsy), so the store runs
an unscoped global search and internal sources from documents outside
the thread's scope can appear (third conjunct: a concrete store whose
only chunk belongs to another document is returned), while the
streaming endpoint passes the coerced empty list and yields zero
internal sources. -/
theorem C3_empty_doc_ids_endpoint_divergence (store : List ChunkRow)
    (message : String) (max_internal_sources : ℕ) :
    (chatInternalSources store message max_internal_sources (some []) =
      search store message max_internal_sources none 0) ∧
    (streamInternalSources store message max_internal_sources (some []) = []) ∧
    (chatInternalSources [⟨"other-doc", 0, "alpha beta", "other.txt"⟩]
        "alpha" 5 (some []) =
      [{ source_type := .internal_document, document_id := some "other-doc",
         document_name := some "other.txt", url := none,
         snippet := "alpha beta", relevance_score := 1 }]) := by
  refine ⟨rfl, search_empty_doc_ids store message max_internal_sources 0, ?_⟩
  decide

theorem internalThreshold_eq (use_web_search : Bool) (web_sources : List Source) :
    internalThreshold use_web_search web_sources =
      if use_web_search = true ∧ web_sources ≠ [] then 3/4 else 2/5 := by
  unfold internalThreshold
  cases use_web_search <;> cases web_sources <;> simp

/-- C4: in every chat turn, an internal source is kept iff its
relevance score is at least 0.75 when web search ran and returned at
least one source and at least 0.4 otherwise, a web source is kept iff
its score is at least 0.4 (first conjunct: the merged list is a
permutation of the filtered internal sources followed by the filtered
web sources), the merged list is sorted by relevance score descending
(second conjunct), and the sort is stable: any pair in filtered-concat
order with non-increasing scores keeps its order (third conjunct). -/
theorem C4_threshold_filter_and_stable_merge (use_web_search : Bool)
    (internal_sources web_sources : List Source) :
    ((mergeChatSources use_web_search internal_sources web_sources).Perm
      (internal_sources.filter (fun s =>
          (if use_web_search = true ∧ web_sources ≠ [] then (3/4 : ℚ) else 2/5)
            ≤ s.relevance_score)
        ++ web_sources.filter (fun s => (2/5 : ℚ) ≤ s.relevance_score))) ∧
    ((mergeChatSources use_web_search internal_sources web_sources).Sorted
      (fun a b => b.relevance_score ≤ a.relevance_score)) ∧
    (∀ a b : Source, b.relevance_score ≤ a.relevance_score →
      [a, b] <+ (internal_sources.filter (fun s =>
          (if use_web_search = true ∧ web_sources ≠ [] then (3/4 : ℚ) else 2/5)
            ≤ s.relevance_score)
        ++ web_sources.filter (fun s => (2/5 : ℚ) ≤ s.relevance_score)) →
      [a, b] <+ mergeChatSources use_web_search internal_sources web_sources) := by
  have hfilter : (internal_sources.filter (fun s =>
        (if use_web_search = true ∧ web_sources ≠ [] then (3/4 : ℚ) else 2/5)
          ≤ s.relevance_score))
      = internal_sources.filter (fun s =>
        internalThreshold use_web_search web_sources ≤ s.relevance_score) := by
    simp only [internalThreshold_eq]
  refine ⟨?_, ?_, ?_⟩
  · rw [hfilter]
    exact List.perm_insertionSort scoreDesc _
  · exact List.sorted_insertionSort scoreDesc _
  · intro a b hab hsub
    rw [hfilter] at hsub
    exact List.pair_sublist_insertionSort (r := scoreDesc) hab hsub

/-- C4 witness: two internal sources with the same score 0.9 and no web
search keep their request order in the merged list (stability at a
concrete input). -/
theorem C4_witness :
    [({ source_type := .internal_document, snippet := "", relevance_score := 9/10 } : Source),
     { source_type := .internal_document, snippet := "x", relevance_score := 9/10 }] <+
      mergeChatSources false
        [{ source_type := .internal_document, snippet := "", relevance_score := 9/10 },
         { source_type := .internal_document, snippet := "x", relevance_score := 9/10 }]
        [] := by
  refine (C4_threshold_filter_and_stable_merge false
      [{ source_type := .internal_document, snippet := "", relevance_score := 9/10 },
       { source_type := .internal_document, snippet := "x", relevance_score := 9/10 }]
      []).2.2 _ _ (le_refl _) ?_
  have h : ([{ source_type := .internal_document, snippet := "", relevance_score := 9/10 },
       { source_type := .internal_document, snippet := "x", relevance_score := 9/10 }] :
        List Source).filter (fun s =>
          (if (false = true ∧ ([] : List Source) ≠ []) then (3/4 : ℚ) else 2/5)
            ≤ s.relevance_score)
      ++ ([] : List Source).filter (fun s => (2/5 : ℚ) ≤ s.relevance_score)
      = [{ source_type := .internal_document, snippet := "", relevance_score := 9/10 },
         { source_type := .internal_document, snippet := "x", relevance_score := 9/10 }] := by
    norm_num [List.filter]
  rw [h]

/-- C5: when the tiered lexical matching yields zero rows for a
non-empty `doc_ids` set, the search returns the first `n_results`
chunks of the selected documents ordered by `(doc_id, chunk_index)`
ascending, each with fixed relevance score 0.45: the result is exactly
the fallback conversion (first conjunct), every returned source scores
0.45 (second conjunct), the fallback rows are sorted by
`(doc_id, chunk_index)` (third conjunct), and the result has
`min n_results (number of selected chunks)` entries (fourth
conjunct). -/
theorem C5_no_match_fallback (store : List ChunkRow) (query : String)
    (n_results : ℕ) (doc_ids : List String)
    (hids : doc_ids ≠ [])
    (hnomatch : store.filter (fun r => doc_ids.contains r.doc_id &&
        whereMatches (String.mk (pyStrip query.data))
          (extract_query_terms (String.mk (pyStrip query.data))) r) = []) :
    (search store query n_results (some doc_ids) 0 =
      ((((store.filter (fun r => doc_ids.contains r.doc_id)).map
          (fun r => (r, (9/20 : ℚ)))).insertionSort fallbackOrder).take n_results).map
        rowToSource) ∧
    (∀ s ∈ search store query n_results (some doc_ids) 0,
      s.relevance_score = 9/20) ∧
    ((fetch_fallback_chunks store doc_ids n_results).Sorted fallbackOrder) ∧
    ((search store query n_results (some doc_ids) 0).length
      = min n_results (store.filter (fun r => doc_ids.contains r.doc_id)).length) := by
  have hlen0 : ¬doc_ids.length = 0 := by
    simpa [List.length_eq_zero] using hids
  have hmain : search store query n_results (some doc_ids) 0
      = rows_to_sources (fetch_fallback_chunks store doc_ids n_results) := by
    have hstep : search store query n_results (some doc_ids) 0
        = if doc_ids.length = 0 then []
          else
            rows_to_sources
              (if (scopedRows store (String.mk (pyStrip query.data))
                    (extract_query_terms (String.mk (pyStrip query.data)))
                    doc_ids n_results).isEmpty
                then fetch_fallback_chunks store doc_ids n_results
                else scopedRows store (String.mk (pyStrip query.data))
                  (extract_query_terms (String.mk (pyStrip query.data)))
                  doc_ids n_results) := rfl
    have hrows : scopedRows store (String.mk (pyStrip query.data))
        (extract_query_terms (String.mk (pyStrip query.data))) doc_ids n_results = [] := by
      unfold scopedRows
      rw [hnomatch]
      simp
    rw [hstep, if_neg hlen0, hrows]
    simp
  refine ⟨hmain, ?_, ?_, ?_⟩
  · intro s hs
    rw [hmain] at hs
    unfold rows_to_sources fetch_fallback_chunks at hs
    rcases List.mem_map.mp hs with ⟨rr, hrr, rfl⟩
    have hrr' := List.take_subset _ _ hrr
    rw [List.mem_insertionSort] at hrr'
    rcases List.mem_map.mp hrr' with ⟨r, _, rfl⟩
    rfl
  · exact ((List.sorted_insertionSort fallbackOrder _).sublist
      (List.take_sublist ..))
  · rw [hmain]
    unfold rows_to_sources fetch_fallback_chunks
    simp

/-- C5 witness: the spec's own example — a generic prompt against a
document with unrelated vocabulary still returns that document's
leading chunk, scored 0.45. -/
theorem C5_witness :
    (search [⟨"d1", 0, "zebra quantum flux", "f.txt"⟩] "tell me about this document"
        5 (some ["d1"]) 0 =
      (((([⟨"d1", 0, "zebra quantum flux", "f.txt"⟩] : List ChunkRow).filter
          (fun r => (["d1"] : List String).contains r.doc_id)).map
          (fun r => (r, (9/20 : ℚ)))).insertionSort fallbackOrder |>.take 5).map
        rowToSource) ∧
    (∀ s ∈ search [⟨"d1", 0, "zebra quantum flux", "f.txt"⟩]
        "tell me about this document" 5 (some ["d1"]) 0,
      s.relevance_score = 9/20) := by
  have h := C5_no_match_fallback [⟨"d1", 0, "zebra quantum flux", "f.txt"⟩]
    "tell me about this document" 5 ["d1"] (by decide) (by decide)
  exact ⟨h.1, h.2.1⟩

theorem any_congr {α : Type} {l : List α} {f g : α → Bool}
    (h : ∀ x ∈ l, f x = g x) : l.any f = l.any g := by
  induction l with
  | nil => rfl
  | cons a l ih =>
    simp only [List.any_cons, h a (List.mem_cons_self ..),
      ih (fun x hx => h x (List.mem_cons_of_mem _ hx))]

/-- C6 (amended): for a query whose stripped lowercased text contains
no SQL `LIKE` metacharacter (`%`, `_`, `\`) and a non-empty `doc_ids`
set for which at least one candidate chunk matches, the scoped search
restricts candidates to chunks of those documents, scores a candidate
1.0 when its content contains the raw query as a case-insensitive
substring, else 0.7 when it contains some extracted term, and excludes
it otherwise (when no candidate matches, the C5 fallback applies
instead); results are ordered by score descending then chunk index
ascending and capped at `n_results`; extracted terms are the lowercase
alphanumeric tokens of the query, minus tokens shorter than 3
characters or stop words, deduplicated in order and capped at 12. -/
theorem C6_scoped_lexical_tiers (store : List ChunkRow) (query : String)
    (n_results : ℕ) (doc_ids : List String) (query_text : String)
    (terms : List String)
    (hq : query_text = String.mk (pyStrip query.data))
    (ht : terms = extract_query_terms query_text)
    (hmeta : noMeta (asciiLower query_text))
    (hids : doc_ids ≠ [])
    (hrows : store.filter (fun r => doc_ids.contains r.doc_id &&
        (containsCI r.content query_text ||
          terms.any (fun t => containsCI r.content t))) ≠ []) :
    (search store query n_results (some doc_ids) 0 =
      ((((store.filter (fun r => doc_ids.contains r.doc_id &&
            (containsCI r.content query_text ||
              terms.any (fun t => containsCI r.content t)))).map
          (fun r => (r, if containsCI r.content query_text then (1 : ℚ)
            else 7/10))).insertionSort sqlOrderRank).take n_results).map
        rowToSource) ∧
    ((search store query n_results (some doc_ids) 0).length ≤ n_results) ∧
    (((((store.filter (fun r => doc_ids.contains r.doc_id &&
            (containsCI r.content query_text ||
              terms.any (fun t => containsCI r.content t)))).map
          (fun r => (r, if containsCI r.content query_text then (1 : ℚ)
            else 7/10))).insertionSort sqlOrderRank).take n_results).Sorted
        sqlOrderRank) ∧
    (terms.length ≤ 12 ∧ terms.Nodup ∧
      ∀ t ∈ terms, 3 ≤ t.length ∧ t ∉ STOP_WORDS ∧
        ∀ c ∈ t.data, isLowerAlnum c = true) := by
  subst hq
  subst ht
  have hqt : ∀ content : String,
      ilikeContains content (String.mk (pyStrip query.data))
        = containsCI content (String.mk (pyStrip query.data)) :=
    fun content => ilikeContains_eq_containsCI hmeta
  have hterm : ∀ t ∈ extract_query_terms (String.mk (pyStrip query.data)),
      ∀ content : String, ilikeContains content t = containsCI content t := by
    intro t htm content
    exact ilikeContains_eq_containsCI
      (noMeta_asciiLower_of_alnum
        (((extract_query_terms_spec (String.mk (pyStrip query.data))).2.2 t htm).2.2))
  have hwhere : ∀ r : ChunkRow,
      whereMatches (String.mk (pyStrip query.data))
        (extract_query_terms (String.mk (pyStrip query.data))) r
      = (containsCI r.content (String.mk (pyStrip query.data)) ||
          (extract_query_terms (String.mk (pyStrip query.data))).any
            (fun t => containsCI r.content t)) := by
    intro r
    unfold whereMatches
    rw [hqt r.content]
    congr 1
    exact any_congr (fun t htm => hterm t htm r.content)
  have hfeq : store.filter (fun r => doc_ids.contains r.doc_id &&
        whereMatches (String.mk (pyStrip query.data))
          (extract_query_terms (String.mk (pyStrip query.data))) r)
      = store.filter (fun r => doc_ids.contains r.doc_id &&
          (containsCI r.content (String.mk (pyStrip query.data)) ||
            (extract_query_terms (String.mk (pyStrip query.data))).any
              (fun t => containsCI r.content t))) :=
    List.filter_congr (fun r _ => by rw [hwhere r])
  have hscoped : scopedRows store (String.mk (pyStrip query.data))
        (extract_query_terms (String.mk (pyStrip query.data))) doc_ids n_results
      = (((store.filter (fun r => doc_ids.contains r.doc_id &&
            (containsCI r.content (String.mk (pyStrip query.data)) ||
              (extract_query_terms (String.mk (pyStrip query.data))).any
                (fun t => containsCI r.content t)))).map
          (fun r => (r, if containsCI r.content (String.mk (pyStrip query.data))
            then (1 : ℚ) else 7/10))).insertionSort sqlOrderRank).take n_results := by
    unfold scopedRows
    rw [hfeq]
    congr 1
    congr 1
    apply List.map_congr_left
    intro r _
    unfold rankScore
    rw [hqt r.content]
  have hlen0 : ¬doc_ids.length = 0 := by
    simpa [List.length_eq_zero] using hids
  have hstep : search store query n_results (some doc_ids) 0
      = if doc_ids.length = 0 then []
        else
          rows_to_sources
            (if (scopedRows store (String.mk (pyStrip query.data))
                  (extract_query_terms (String.mk (pyStrip query.data)))
                  doc_ids n_results).isEmpty
              then fetch_fallback_chunks store doc_ids n_results
              else scopedRows store (String.mk (pyStrip query.data))
                (extract_query_terms (String.mk (pyStrip query.data)))
                doc_ids n_results) := rfl
  have hmain : search store query n_results (some doc_ids) 0 =
      ((((store.filter (fun r => doc_ids.contains r.doc_id &&
            (containsCI r.content (String.mk (pyStrip query.data)) ||
              (extract_query_terms (String.mk (pyStrip query.data))).any
                (fun t => containsCI r.content t)))).map
          (fun r => (r, if containsCI r.content (String.mk (pyStrip query.data))
            then (1 : ℚ) else 7/10))).insertionSort sqlOrderRank).take n_results).map
        rowToSource := by
    rw [hstep, if_neg hlen0, hscoped]
    by_cases hempty : ((((store.filter (fun r => doc_ids.contains r.doc_id &&
            (containsCI r.content (String.mk (pyStrip query.data)) ||
              (extract_query_terms (String.mk (pyStrip query.data))).any
                (fun t => containsCI r.content t)))).map
          (fun r => (r, if containsCI r.content (String.mk (pyStrip query.data))
            then (1 : ℚ) else 7/10))).insertionSort sqlOrderRank).take n_results).isEmpty
    · -- the lexical tier is empty: since at least one candidate matches,
      -- this forces n_results = 0, and both sides are empty
      have h0 : n_results = 0 := by
        rw [List.isEmpty_iff, List.take_eq_nil_iff] at hempty
        rcases hempty with h | h
        · exact h
        · exfalso
          have := congrArg List.length h
          simp only [List.length_insertionSort, List.length_map,
            List.length_nil] at this
          exact hrows (List.length_eq_zero.mp this)
      subst h0
      rw [hempty]
      unfold rows_to_sources fetch_fallback_chunks
      simp
    · rw [if_neg (by simpa using hempty)]
      rfl
  refine ⟨hmain, ?_, ?_, ?_⟩
  · rw [hmain]
    simp [List.length_take]
  · exact (List.sorted_insertionSort sqlOrderRank _).sublist (List.take_sublist ..)
  · exact extract_query_terms_spec (String.mk (pyStrip query.data))

/-- C6 counterexample: the raw query is used as an `ILIKE` pattern, so
its `LIKE` metacharacters act as wildcards — for the query "a_" the
underscore matches any character.  A chunk with content "ab" contains
neither the raw query "a_" as a substring nor any extracted term (the
only token "a" is dropped as too short), so by the claim it is
excluded; the search nevertheless returns it with score 1.0. -/
theorem C6_counterexample :
    extract_query_terms "a_" = [] ∧
    containsCI "ab" "a_" = false ∧
    (search [⟨"d1", 0, "ab", "f.txt"⟩] "a_" 5 (some ["d1"]) 0).map
      Source.relevance_score = [1] := by
  refine ⟨?_, ?_, ?_⟩ <;> decide

/-- C6 witness: query "python" against a single in-scope chunk
containing "Python": the chunk matches the raw-query tier and the
search returns it via the scoped lexical pipeline. -/
theorem C6_witness :
    (search [⟨"d1", 0, "Python is great", "f.txt"⟩] "python" 5 (some ["d1"]) 0 =
      (((([⟨"d1", 0, "Python is great", "f.txt"⟩] : List ChunkRow).filter
          (fun r => (["d1"] : List String).contains r.doc_id &&
            (containsCI r.content "python" ||
              (["python"] : List String).any (fun t => containsCI r.content t)))).map
          (fun r => (r, if containsCI r.content "python" then (1 : ℚ)
            else 7/10))).insertionSort sqlOrderRank |>.take 5).map rowToSource) ∧
    ((search [⟨"d1", 0, "Python is great", "f.txt"⟩] "python" 5
        (some ["d1"]) 0).length ≤ 5) := by
  have h := C6_scoped_lexical_tiers [⟨"d1", 0, "Python is great", "f.txt"⟩]
    "python" 5 ["d1"] "python" ["python"]
    (by decide) (by decide) (by unfold noMeta; decide) (by decide) (by decide)
  exact ⟨h.1, h.2.1⟩

theorem upsert_fold_enumFrom : ∀ (l : List String) (k : ℕ)
    (pre : List (ℕ × String)) (vals : List String),
    (∀ p ∈ pre, p.1 < k) →
    (List.enumFrom k l).foldl (fun rows ic => upsertChunk ic.1 ic.2 rows)
        (pre ++ List.enumFrom k vals)
      = pre ++ List.enumFrom k l
          ++ List.enumFrom (k + l.length) (vals.drop l.length)
  | [], k, pre, vals, hpre => by simp
  | c :: l, k, pre, vals, hpre => by
    rw [List.enumFrom_cons, List.foldl_cons]
    have hkey : ∀ p ∈ pre, (p.1 == k) = false := by
      intro p hp
      exact beq_false_of_ne (Nat.ne_of_lt (hpre p hp))
    have hpre' : ∀ p ∈ pre ++ [(k, c)], p.1 < k + 1 := by
      intro p hp
      rcases List.mem_append.mp hp with hp | hp
      · exact Nat.lt_succ_of_lt (hpre p hp)
      · simp only [List.mem_singleton] at hp
        subst hp
        exact Nat.lt_succ_self k
    have hidx : k + (c :: l).length = k + 1 + l.length := by
      simp only [List.length_cons]
      omega
    cases vals with
    | nil =>
      have hup : upsertChunk k c (pre ++ List.enumFrom k []) = pre ++ [(k, c)] := by
        unfold upsertChunk
        rw [if_neg]
        · simp
        · simp only [List.enumFrom_nil, List.append_nil, List.any_eq_true]
          rintro ⟨p, hp, hpk⟩
          rw [hkey p hp] at hpk
          cases hpk
      rw [hup]
      have hrec := upsert_fold_enumFrom l (k + 1) (pre ++ [(k, c)]) [] hpre'
      simp only [List.enumFrom_nil, List.append_nil] at hrec
      rw [hrec, hidx]
      simp [List.enumFrom_cons]
    | cons v vs =>
      have hup : upsertChunk k c (pre ++ List.enumFrom k (v :: vs))
          = (pre ++ [(k, c)]) ++ List.enumFrom (k + 1) vs := by
        unfold upsertChunk
        rw [if_pos]
        · rw [List.enumFrom_cons, List.map_append, List.map_cons]
          have hmap1 : pre.map
              (fun r => if (r.1 == k) = true then (k, c) else r) = pre := by
            rw [List.map_congr_left (g := id) (fun p hp => by simp [hkey p hp]),
              List.map_id]
          have hmap2 : (List.enumFrom (k + 1) vs).map
              (fun r => if (r.1 == k) = true then (k, c) else r)
              = List.enumFrom (k + 1) vs := by
            refine (List.map_congr_left (g := id) (fun p hp => ?_)).trans
              (List.map_id _)
            have hge := List.le_fst_of_mem_enumFrom hp
            have hne : (p.1 == k) = false := beq_false_of_ne (by omega)
            simp [hne]
          rw [hmap1, hmap2]
          simp
        · rw [List.any_eq_true]
          refine ⟨(k, v), ?_, by simp⟩
          rw [List.enumFrom_cons]
          exact List.mem_append_right _ (List.mem_cons_self ..)
      rw [hup]
      have hrec := upsert_fold_enumFrom l (k + 1) (pre ++ [(k, c)]) vs hpre'
      rw [hrec, hidx]
      simp [List.enumFrom_cons]

/-- Folding the chunk upserts of contents `l` over an empty chunk table
yields exactly the enumerated contents. -/
theorem upsert_fold_from_empty (l : List String) :
    l.enum.foldl (fun rows ic => upsertChunk ic.1 ic.2 rows) [] = l.enum := by
  have h := upsert_fold_enumFrom l 0 [] [] (by simp)
  simpa [List.enum_eq_enumFrom] using h

/-- C8 (amended): chunk persistence upserts by `(doc_id, chunk_index)`:
re-ingesting the same document leaves exactly one stored chunk per
`chunk_index` (second conjunct: the stored indexes are distinct), every
index written by the latest ingestion holds the latest content, and
`chunk_count` and `status` reflect the latest ingestion — but when the
latest ingestion produces fewer chunks than the previous one, the
previous ingestion's higher-index chunks persist with stale content:
the stored table is exactly the latest chunks followed by the stale
tail (first conjunct).  When the latest ingestion has at least as many
chunks, the store is exactly the latest chunks (fifth conjunct). -/
theorem C8_reingestion_upsert (contents₁ contents₂ : List String)
    (st₀ : DocState) (hst : st₀.chunks = [])
    (h₂ : contents₂ ≠ []) :
    ((add_document_chunks contents₂ (add_document_chunks contents₁ st₀)).chunks
      = contents₂.enum
        ++ List.enumFrom contents₂.length (contents₁.drop contents₂.length)) ∧
    (((add_document_chunks contents₂
        (add_document_chunks contents₁ st₀)).chunks.map Prod.fst).Nodup) ∧
    ((add_document_chunks contents₂ (add_document_chunks contents₁ st₀)).chunk_count
      = contents₂.length) ∧
    ((add_document_chunks contents₂ (add_document_chunks contents₁ st₀)).status
      = .completed) ∧
    (contents₁.length ≤ contents₂.length →
      (add_document_chunks contents₂ (add_document_chunks contents₁ st₀)).chunks
        = contents₂.enum) := by
  have hch : (add_document_chunks contents₁ st₀).chunks = contents₁.enum := by
    unfold add_document_chunks
    split
    · rename_i hc
      rw [hst, List.isEmpty_iff.mp hc]
      simp
    · simp only
      rw [hst, upsert_fold_from_empty]
  have hmain : (add_document_chunks contents₂
      (add_document_chunks contents₁ st₀)).chunks
      = contents₂.enum
        ++ List.enumFrom contents₂.length (contents₁.drop contents₂.length) := by
    conv_lhs => rw [add_document_chunks]
    rw [if_neg (by simpa [List.isEmpty_iff] using h₂)]
    simp only
    rw [hch]
    have h := upsert_fold_enumFrom contents₂ 0 [] contents₁ (by simp)
    simpa [List.enum_eq_enumFrom] using h
  refine ⟨hmain, ?_, ?_, ?_, ?_⟩
  · rw [hmain, List.map_append, List.enum_eq_enumFrom, List.enumFrom_map_fst,
      List.enumFrom_map_fst]
    rw [List.nodup_append]
    refine ⟨List.nodup_range' .., List.nodup_range' .., ?_⟩
    intro i hi hj
    rw [List.mem_range'] at hi hj
    omega
  · unfold add_document_chunks
    rw [if_neg (by simpa [List.isEmpty_iff] using h₂)]
  · unfold add_document_chunks
    rw [if_neg (by simpa [List.isEmpty_iff] using h₂)]
  · intro hle
    rw [hmain, List.drop_eq_nil_of_le hle]
    simp

/-- C8 counterexample: ingesting two chunks then re-ingesting a single
chunk for the same document leaves the first ingestion's chunk at index
1 with its stale content "B", which is not part of the latest
ingestion — the stored content is not "that of the latest ingestion"
for every index. -/
theorem C8_counterexample :
    (add_document_chunks ["C"]
        (add_document_chunks ["A", "B"] ⟨[], 0, .processing⟩)).chunks
      = [(0, "C"), (1, "B")] ∧
    "B" ∉ ["C"] ∧
    (add_document_chunks ["C"]
        (add_document_chunks ["A", "B"] ⟨[], 0, .processing⟩)).chunk_count = 1 := by
  refine ⟨?_, ?_, ?_⟩ <;> decide

/-- C8 witness: re-ingesting the same single chunk list twice leaves
exactly that chunk, with matching count and completed status. -/
theorem C8_witness :
    (add_document_chunks ["C"]
        (add_document_chunks ["A", "B"] ⟨[], 0, .processing⟩)).chunks
      = (["C"] : List String).enum
        ++ List.enumFrom 1 ((["A", "B"] : List String).drop 1) ∧
    (add_document_chunks ["C"]
        (add_document_chunks ["A", "B"] ⟨[], 0, .processing⟩)).status
      = .completed := by
  have h := C8_reingestion_upsert ["A", "B"] ["C"] ⟨[], 0, .processing⟩
    rfl (by decide)
  exact ⟨h.1, h.2.2.2.1⟩

theorem collapse_chars (l : List Char) :
    (∀ c ∈ collapseWhitespace l, c = ' ' ∨ isPySpace c = false) ∧
    (∀ c ∈ collapseRun l, c = ' ' ∨ isPySpace c = false) := by
  induction l with
  | nil =>
    constructor <;> intro c hc <;>
      simp [collapseWhitespace, collapseRun] at hc
  | cons a l ih =>
    constructor
    · intro c hc
      rw [collapseWhitespace] at hc
      split at hc
      · rcases List.mem_cons.mp hc with rfl | hc
        · exact .inl rfl
        · exact ih.2 c hc
      · rcases List.mem_cons.mp hc with rfl | hc
        · rename_i ha
          exact .inr (by simpa using ha)
        · exact ih.1 c hc
    · intro c hc
      rw [collapseRun] at hc
      split at hc
      · exact ih.2 c hc
      · rcases List.mem_cons.mp hc with rfl | hc
        · rename_i ha
          exact .inr (by simpa using ha)
        · exact ih.1 c hc

theorem normalizeBlankLines_of_no_newline : ∀ (l : List Char),
    (∀ c ∈ l, c ≠ '\n') → normalizeBlankLines l = l := by
  intro l
  induction l with
  | nil => intro _; rw [normalizeBlankLines]
  | cons a l ih =>
    intro h
    rw [normalizeBlankLines]
    rw [if_neg (h a (List.mem_cons_self ..))]
    rw [ih (fun c hc => h c (List.mem_cons_of_mem _ hc))]

theorem pyStrip_subset {l : List Char} : ∀ c ∈ pyStrip l, c ∈ l := by
  intro c hc
  unfold pyStrip at hc
  rw [List.mem_reverse] at hc
  have h1 := (List.dropWhile_sublist _).subset hc
  rw [List.mem_reverse] at h1
  exact (List.dropWhile_sublist _).subset h1

theorem removeCtl_chars {l : List Char} :
    ∀ c ∈ removeCtl l, c ∈ l ∧ isStrippedCtl c = false := by
  intro c hc
  unfold removeCtl at hc
  have h := List.mem_filter.mp hc
  exact ⟨h.1, by simpa using h.2⟩

/-- After the whitespace collapse and control-character removal, no
newline remains, so the blank-line substitution is the identity. -/
theorem clean_text_eq (text : String) :
    clean_text text
      = String.mk (pyStrip (removeCtl (collapseWhitespace text.data))) := by
  unfold clean_text
  rw [normalizeBlankLines_of_no_newline]
  intro c hc
  rcases (collapse_chars text.data).1 c (removeCtl_chars c hc).1 with rfl | h
  · decide
  · intro he
    subst he
    simp [isPySpace] at h

/-- C9 (amended): the cleaning step first collapses every whitespace
run — newlines included — to a single space, then strips the remaining
control characters, and trims the ends; since no newline survives the
collapse, the blank-line normalization `\n\s*\n → \n\n` is the
identity (first conjunct), the cleaned output contains no newline
(second conjunct) and no stripped control character (third conjunct),
and a paragraph break comes out as a single space, not a blank line
(fourth conjunct). -/
theorem C9_clean_text_collapses_blank_lines (text : String) :
    (clean_text text
      = String.mk (pyStrip (removeCtl (collapseWhitespace text.data)))) ∧
    (∀ c ∈ (clean_text text).data, c ≠ '\n') ∧
    (∀ c ∈ (clean_text text).data, isStrippedCtl c = false) ∧
    (clean_text "a\n\nb" = "a b") := by
  have he := clean_text_eq text
  have hchars : ∀ c ∈ (clean_text text).data,
      c ∈ removeCtl (collapseWhitespace text.data) := by
    intro c hc
    rw [he] at hc
    exact pyStrip_subset c hc
  refine ⟨he, ?_, ?_, ?_⟩
  · intro c hc
    rcases (collapse_chars text.data).1 c (removeCtl_chars c (hchars c hc)).1
      with rfl | h
    · decide
    · intro hne
      subst hne
      simp [isPySpace] at h
  · intro c hc
    exact (removeCtl_chars c (hchars c hc)).2
  · rw [clean_text_eq "a\n\nb"]
    decide

/-- C9 counterexample: the claim says a paragraph break survives as a
blank line, but cleaning "a\n\nb" yields "a b" — the two newlines are
collapsed into one space and no newline remains. -/
theorem C9_counterexample :
    clean_text "a\n\nb" = "a b" ∧
    ¬ ∃ c ∈ (clean_text "a\n\nb").data, c = '\n' := by
  have he := clean_text_eq "a\n\nb"
  constructor
  · rw [he]
    decide
  · rw [he]
    decide

/-- C9 witness: the cleaning equations applied at a concrete input with
leading whitespace, an inner run and a control character. -/
theorem C9_witness :
    (clean_text " x\t\n y\x01 "
      = String.mk (pyStrip (removeCtl (collapseWhitespace " x\t\n y\x01 ".data)))) ∧
    '\n' ∉ (clean_text " x\t\n y\x01 ").data := by
  have h := C9_clean_text_collapses_blank_lines " x\t\n y\x01 "
  exact ⟨h.1, fun hc => h.2.1 '\n' hc rfl⟩

theorem snippetOf_length_le (content : String) :
    (snippetOf content).length ≤ 503 := by
  unfold snippetOf
  split
  · rw [String.length_append]
    have h1 : (String.mk (content.data.take 500)).length ≤ 500 := by
      simp [List.length_take]
    have h2 : ("..." : String).length = 3 := rfl
    omega
  · omega

theorem snippetOf_length_eq_of_gt {content : String}
    (h : content.length > 500) : (snippetOf content).length = 503 := by
  unfold snippetOf
  rw [if_pos h, String.length_append]
  have h1 : (String.mk (content.data.take 500)).length = 500 := by
    have hd : content.data.length = content.length := rfl
    simp [List.length_take]
    omega
  have h2 : ("..." : String).length = 3 := rfl
  omega

theorem search_sources_are_row_sources (store : List ChunkRow)
    (query : String) (n_results : ℕ) (doc_ids : Option (List String))
    (score_threshold : ℚ) :
    ∀ s ∈ search store query n_results doc_ids score_threshold,
      ∃ rr : RankedRow, s = rowToSource rr := by
  intro s hs
  rcases doc_ids with _ | ids
  · have e : search store query n_results none score_threshold
        = if score_threshold > 0 then
            (rows_to_sources (globalRows store (String.mk (pyStrip query.data))
              (extract_query_terms (String.mk (pyStrip query.data))) n_results)).filter
              (fun s => score_threshold ≤ s.relevance_score)
          else rows_to_sources (globalRows store (String.mk (pyStrip query.data))
            (extract_query_terms (String.mk (pyStrip query.data))) n_results) := rfl
    rw [e] at hs
    split at hs
    · rcases List.mem_map.mp (List.mem_filter.mp hs).1 with ⟨rr, _, h⟩
      exact ⟨rr, h.symm⟩
    · rcases List.mem_map.mp hs with ⟨rr, _, h⟩
      exact ⟨rr, h.symm⟩
  · have e : search store query n_results (some ids) score_threshold
        = if ids.length = 0 then []
          else
            if score_threshold > 0 then
              (rows_to_sources
                (if (scopedRows store (String.mk (pyStrip query.data))
                      (extract_query_terms (String.mk (pyStrip query.data)))
                      ids n_results).isEmpty
                  then fetch_fallback_chunks store ids n_results
                  else scopedRows store (String.mk (pyStrip query.data))
                    (extract_query_terms (String.mk (pyStrip query.data)))
                    ids n_results)).filter
                (fun s => score_threshold ≤ s.relevance_score)
            else rows_to_sources
              (if (scopedRows store (String.mk (pyStrip query.data))
                    (extract_query_terms (String.mk (pyStrip query.data)))
                    ids n_results).isEmpty
                then fetch_fallback_chunks store ids n_results
                else scopedRows store (String.mk (pyStrip query.data))
                  (extract_query_terms (String.mk (pyStrip query.data)))
                  ids n_results) := rfl
    rw [e] at hs
    split at hs
    · cases hs
    · split at hs
      · rcases List.mem_map.mp (List.mem_filter.mp hs).1 with ⟨rr, _, h⟩
        exact ⟨rr, h.symm⟩
      · rcases List.mem_map.mp hs with ⟨rr, _, h⟩
        exact ⟨rr, h.symm⟩

/-- C10 (amended): a web-gatherer source's snippet is the first 500
characters of the provider content, hence at most 500 characters
(fourth and fifth conjuncts); an internal source's snippet is the full
chunk content when it is at most 500 characters (second conjunct), and
the first 500 characters suffixed with "..." — 503 characters in
total — when the content is longer (third conjunct); hence every
source produced by the lexical search has a snippet of at most 503
(not 500) characters (sixth conjunct). -/
theorem C10_snippet_bounds (content : String) (item : TavilyItem)
    (store : List ChunkRow) (query : String) (n_results : ℕ)
    (doc_ids : Option (List String)) (score_threshold : ℚ) :
    ((snippetOf content).length ≤ 503) ∧
    (content.length ≤ 500 → snippetOf content = content) ∧
    (content.length > 500 →
      snippetOf content = String.mk (content.data.take 500) ++ "..." ∧
      (snippetOf content).length = 503) ∧
    ((tavilySearchSource item).snippet.length ≤ 500) ∧
    ((tavilyExtractSource item).snippet.length ≤ 500) ∧
    (∀ s ∈ search store query n_results doc_ids score_threshold,
      s.snippet.length ≤ 503) := by
  refine ⟨snippetOf_length_le content, ?_, ?_, ?_, ?_, ?_⟩
  · intro h
    unfold snippetOf
    rw [if_neg (by omega)]
  · intro h
    exact ⟨by unfold snippetOf; rw [if_pos h], snippetOf_length_eq_of_gt h⟩
  · show (String.mk ((item.content.getD "").data.take 500)).length ≤ 500
    simp [List.length_take]
  · show (if (item.content.getD "") = "" then ""
      else String.mk ((item.content.getD "").data.take 500)).length ≤ 500
    split
    · simp
    · show (String.mk ((item.content.getD "").data.take 500)).length ≤ 500
      simp [List.length_take]
  · intro s hs
    rcases search_sources_are_row_sources store query n_results doc_ids
      score_threshold s hs with ⟨rr, rfl⟩
    exact snippetOf_length_le rr.1.content

set_option maxRecDepth 4000 in
/-- C10 counterexample: an internal chunk of 501 characters produces a
snippet of 503 characters — more than the claimed 500-character
bound. -/
theorem C10_counterexample :
    (rowToSource (⟨"d", 0, String.mk (List.replicate 501 'a'), "f"⟩,
        1)).snippet.length = 503 ∧ ¬(503 ≤ 500) := by
  constructor
  · show (snippetOf (String.mk (List.replicate 501 'a'))).length = 503
    apply snippetOf_length_eq_of_gt
    show (List.replicate 501 'a').length > 500
    rw [List.length_replicate]
    omega
  · omega

/-- C10 witness: the snippet equations applied at concrete inputs — a
short chunk content is kept whole, and a concrete web item's snippet
respects the 500-character bound. -/
theorem C10_witness :
    snippetOf "short content" = "short content" ∧
    (tavilySearchSource ⟨some "https://e.x", some "hello", some (1/2)⟩).snippet.length
      ≤ 500 := by
  have h := C10_snippet_bounds "short content"
    ⟨some "https://e.x", some "hello", some (1/2)⟩ [] "" 0 none 0
  exact ⟨h.2.1 (by decide), h.2.2.2.1⟩

end QARAG
